import Mathlib

/-!
Verification development for the docci executable-documentation test runner.

The Python sources under `src/` are shallowly embedded as Lean functions:

* `src/execute.py`      → `parse_env`, `execute_substitution_commands` is kept
  abstract as a `subst` oracle (it shells out), `isSourceCmd`, `parseEnvDump`,
  `validate_command`.
* `src/models.py`       → the `Tags` registry (`canonicalTagValues`,
  `tagAliases`, `Tags.isValid`, `Tags.extractTagValue`).
* `src/parsing.py`      → `processLanguageParts`.
* `src/config.py`       → `Config`, `Config.fromJson`.
* `src/managers/file_operations.py` → `FileOperations.replaceLinesOp`,
  `FileOperations.insertLinesOp`.
* `src/managers/cmd.py` → `CommandExecutor`, `executeCommandStep`,
  `CommandExecutor.runCommands`.

Shell-level effects (spawning a child process, its exit status and captured
output, the `env` dump printed by a rewritten `source` command, the machine OS
and filesystem queried by the skip gates) are modelled as oracles carried by
`ShellCmd` and `SysOracle`; everything the Python code computes from those
observations is translated faithfully.  Environments (`os.environ`) are
modelled as total functions `String → Option String`.
-/

/-! ### Generic string/list helpers (Python built-ins) -/

/-- Python `pat in s` on lists of characters: `pat` occurs contiguously in `s`. -/
def charsContain (s pat : List Char) : Bool :=
  if pat.isPrefixOf s then true
  else
    match s with
    | [] => false
    | _ :: t => charsContain t pat

/-- Python substring test `pat in s`. -/
def strContains (s pat : String) : Bool :=
  charsContain s.toList pat.toList

/-- Whitespace-stripping on characters (Python `str.strip()`). -/
def trimChars (cs : List Char) : List Char :=
  ((cs.dropWhile Char.isWhitespace).reverse.dropWhile Char.isWhitespace).reverse

/-- Python `s.strip()`. -/
def pyTrim (s : String) : String := String.mk (trimChars s.toList)

/-- Python `s.startswith(pre)`. -/
def pyStartsWith (s pre : String) : Bool := pre.toList.isPrefixOf s.toList

/-- Python `s.endswith(suf)`. -/
def pyEndsWith (s suf : String) : Bool := suf.toList.isSuffixOf s.toList

/-- Python `s.lower()` (ASCII suffices for the strings docci lowers). -/
def pyToLower (s : String) : String := String.mk (s.toList.map Char.toLower)

/-- Split on a single separator character (Python `s.split(sep)` for a
one-character separator, empty pieces kept). -/
def splitChar (sep : Char) : List Char → List (List Char)
  | [] => [[]]
  | x :: xs =>
    let r := splitChar sep xs
    if x = sep then [] :: r
    else
      match r with
      | [] => [[x]]
      | h :: t => (x :: h) :: t

/-- Python `s.split(sep)` for a one-character separator string. -/
def pySplitOnChar (sep : Char) (s : String) : List String :=
  (splitChar sep s.toList).map String.mk

/-- Python `s.replace("", sub)`: the replacement goes before every character
and at the end. -/
def replaceEmptyPat (sub : List Char) : List Char → List Char
  | [] => sub
  | c :: rest => sub ++ c :: replaceEmptyPat sub rest

/-- Python `s.replace(pat, sub)` for a non-empty `pat`: replace every
non-overlapping occurrence, scanning left to right.  The `skip` counter
consumes the remaining characters of a match just emitted. -/
def replaceGo (pat sub : List Char) : List Char → Nat → List Char
  | [], _ => []
  | _ :: rest, skip + 1 => replaceGo pat sub rest skip
  | c :: rest, 0 =>
    if pat.isPrefixOf (c :: rest) then
      sub ++ replaceGo pat sub rest (pat.length - 1)
    else c :: replaceGo pat sub rest 0

/-- Python `s.replace(pat, sub)`. -/
def pyReplace (s pat sub : String) : String :=
  match pat.toList with
  | [] => String.mk (replaceEmptyPat sub.toList s.toList)
  | p :: ps => String.mk (replaceGo (p :: ps) sub.toList s.toList 0)

/-- Python `s.split(sep, 1)[0]` and remainder: split at the first occurrence of
character `c`; returns `(before, after)`; when `c` is absent, `after = none`. -/
def splitFirstChar (c : Char) : List Char → List Char × Option (List Char)
  | [] => ([], none)
  | x :: xs =>
    if x = c then ([], some xs)
    else
      let (b, a) := splitFirstChar c xs
      (x :: b, a)

/-- First word of a Python `str.split()` (split on whitespace runs) of a
trimmed string: used for `command.strip().split()[0]`. -/
def firstWord (s : String) : String :=
  String.mk ((trimChars s.toList).takeWhile (fun c => ¬ c.isWhitespace))

/-! ### Environments (`os.environ`) -/

/-- The process environment, `os.environ`, as a total lookup function. -/
def EnvMap : Type := String → Option String

/-- Python dict assignment `env[k] = v`. -/
def envSet (e : EnvMap) (k v : String) : EnvMap :=
  fun x => if x = k then some v else e x

/-- Python `env.update(pairs)`: apply the assignments left to right (later wins,
exactly the Python `dict` insertion/update semantics). -/
def envUpdate (e : EnvMap) (ps : List (String × String)) : EnvMap :=
  ps.foldl (fun e p => envSet e p.1 p.2) e

/-- The value a pair list leaves at key `k` (later entries win), i.e. the
lookup in the Python dict built from `ps`. -/
def lastVal (ps : List (String × String)) (k : String) : Option String :=
  ps.foldl (fun acc p => if p.1 = k then some p.2 else acc) none

/-! ### `src/execute.py` — env parsing (`parse_env`) and `source` handling

`execute_substitution_commands` shells out to evaluate backtick / `$(...)`
substitutions, so it is kept abstract as a `subst : String → String` oracle.
-/

/-- Character class `[A-Za-z_]` (the regexes in `parse_env` are ASCII-only). -/
def isIdentStart (c : Char) : Bool := c.isAlpha || c = '_'

/-- Character class `[A-Za-z0-9_]`. -/
def isIdentChar (c : Char) : Bool := c.isAlpha || c.isDigit || c = '_'

/-- Match `([A-Za-z_][A-Za-z0-9_]*)=` at the start of `cs`; returns the key and
the characters after the `=`.  Since `=` is not an identifier character, the
greedy identifier run of the Python regexes is exactly `takeWhile`. -/
def matchKeyEq : List Char → Option (String × List Char)
  | [] => none
  | c :: rest =>
    if isIdentStart c then
      match rest.dropWhile isIdentChar with
      | '=' :: v => some (String.mk (c :: rest.takeWhile isIdentChar), v)
      | _ => none
    else none

/-- A whitespace-free token matching `[A-Za-z_][A-Za-z0-9_]*=[^ ]+` in full
(the `KEY=VALUE` pair shape of the inline regex in `parse_env`). -/
def isPairToken (t : String) : Bool :=
  match matchKeyEq t.toList with
  | some (_, v) => !v.isEmpty
  | none => false

/-- Regex `^export\s+([A-Za-z_][A-Za-z0-9_]*)=(.*)$` applied to the trimmed command. -/
def exportMatch (trimmed : String) : Option (String × String) :=
  let cs := trimmed.toList
  if "export".toList.isPrefixOf cs then
    let rest := cs.drop 6
    match rest with
    | [] => none
    | c :: _ =>
      if c.isWhitespace then
        match matchKeyEq (rest.dropWhile Char.isWhitespace) with
        | some (k, v) => some (k, String.mk v)
        | none => none
      else none
  else none

/-- Regex `^([A-Za-z_][A-Za-z0-9_]*=[^ ]+(?: [A-Za-z_][A-Za-z0-9_]*=[^ ]+)*) (.+)$`
applied to the trimmed command.  Tokens are the pieces between single spaces;
with Python's greedy backtracking the matched `KEY=VALUE` group is the longest
run of leading pair tokens that still leaves a non-empty remainder, i.e.
`min K (tokens.length - 1)` leading tokens where `K` counts the leading pair
tokens (the trimmed command never ends in a space, so the remainder of any
proper split is non-empty). -/
def inlineMatch (trimmed : String) : Option (List (String × String)) :=
  let tokens := pySplitOnChar ' ' trimmed
  let k := (tokens.takeWhile isPairToken).length
  if 1 ≤ k ∧ 2 ≤ tokens.length then
    some ((tokens.take (min k (tokens.length - 1))).filterMap
      (fun t => (matchKeyEq t.toList).map (fun kv => (kv.1, String.mk kv.2))))
  else none

/-- Function `parse_env` from `src/execute.py`: recognize `export KEY=VALUE`, inline
`K1=V1 K2=V2 cmd`, or standalone `KEY=VALUE`; each value runs through
`execute_substitution_commands` (the `subst` oracle).  Returns the (ordered)
entries of the Python dict. -/
def parse_env (subst : String → String) (command : String) : List (String × String) :=
  if ¬ strContains command "=" then []
  else
    let trimmed := pyTrim command
    match exportMatch trimmed with
    | some (k, v) => [(k, subst v)]
    | none =>
      match inlineMatch trimmed with
      | some pairs => pairs.map (fun p => (p.1, subst p.2))
      | none =>
        match matchKeyEq trimmed.toList with
        | some (k, v) => [(k, subst (String.mk v))]
        | none => []

/-- Python `command.strip().lower().startswith("source ")` from `execute_command`. -/
def isSourceCmd (command : String) : Bool :=
  pyStartsWith (pyToLower (pyTrim command)) "source "

/-- The parse of the `env` dump printed after `__DOCCI_ENV_VAR_DELIM__` by a
rewritten `source` command (`execute_command`, lines 76–84): every line
containing `=` contributes `key = before first =`, `value = rest, stripped`. -/
def parseEnvDump (ls : List String) : List (String × String) :=
  ls.filterMap (fun var =>
    if strContains var "=" then
      let kv := splitFirstChar '=' var.toList
      some (String.mk kv.1, pyTrim (String.mk (kv.2.getD [])))
    else none)

/-- Function `validate_command` from `src/execute.py`: the `forge script` + escaped
double quote pitfall. -/
def validate_command (cmd : String) : Option String :=
  if strContains cmd "forge script" ∧ strContains cmd "\\\"" then
    some "Please use single quotes for forge script `--sig`, not double quotes"
  else none

/-! ### `src/models.py` — the `Tags` registry -/

/-- The reserved `docci-` marker, `Tags.TAGS_PREFIX`. -/
def docciTagMarker : String := "docci-"

namespace Tags

/-- The values of every member of the `Tags` enum in `src/models.py`, in
declaration order.  Note `TAGS_PREFIX = 'docci-'` is itself a member and the
enum contains no entry for a retry or replace-text tag. -/
def canonicalTagValues : List String :=
  [ "docci-"
  , "docci-ignore"
  , "docci-background"
  , "docci-delay-after"
  , "docci-delay-per-cmd"
  , "docci-wait-for-endpoint"
  , "docci-if-not-installed"
  , "docci-output-contains"
  , "docci-assert-failure"
  , "docci-os"
  , "docci-if-file-not-exists"
  , "docci-file"
  , "docci-line-insert"
  , "docci-line-replace"
  , "docci-reset-file" ]

/-- Table `Tags.get_aliases`: alias → canonical tag value, in insertion order. -/
def tagAliases : List (String × String) :=
  [ ("docci-contains-output", "docci-output-contains")
  , ("docci-expected-output", "docci-output-contains")
  , ("docci-contains", "docci-output-contains")
  , ("docci-after-delay", "docci-delay-after")
  , ("docci-cmd-delay", "docci-delay-per-cmd")
  , ("docci-expect-failure", "docci-assert-failure")
  , ("docci-should-fail", "docci-assert-failure")
  , ("docci-machine", "docci-os")
  , ("docci-bg", "docci-background")
  , ("docci-file-name", "docci-file")
  , ("docci-insert-at-line", "docci-line-insert")
  , ("docci-replace-at-line", "docci-line-replace")
  , ("docci-insert-line", "docci-line-insert")
  , ("docci-replace-line", "docci-line-replace") ]

/-- Validation `Tags.is_valid`: strip everything from the first `=`, then check the
canonical enum values and the alias table. -/
def isValid (tag : String) : Bool :=
  let t :=
    if strContains tag "=" then String.mk (splitFirstChar '=' tag.toList).1
    else tag
  canonicalTagValues.contains t || (tagAliases.map (fun a => a.1)).contains t

/-- Check `Tags.has_tag`: the canonical value or any of its aliases occurs as a bare
token. -/
def hasTag (tags : List String) (tag : String) : Bool :=
  tags.contains tag
    || ((tagAliases.filter (fun a => a.2 = tag)).map (fun a => a.1)).any
        (fun al => tags.contains al)

/-- The `possible_tags` list of `extract_tag_value`: the requested tag first,
then — when it is a member of the enum — its aliases in table order. -/
def possibleTags (tagType : String) : List String :=
  if canonicalTagValues.contains tagType then
    tagType :: (tagAliases.filter (fun a => a.2 = tagType)).map (fun a => a.1)
  else [tagType]

/-- The character-by-character quoted-value loop of `extract_tag_value`
(`src/models.py` lines 174–192), on the characters after the opening quote
`q`: `\q` yields a literal quote, `\\` a literal backslash, any other `\` is
kept as-is, the first unescaped `q` ends the value, everything else is
copied. -/
def processQuoted (q : Char) : List Char → List Char
  | [] => []
  | c :: rest =>
    if c = '\\' then
      match rest with
      | c2 :: rest2 =>
        if c2 = q then q :: processQuoted q rest2
        else if c2 = '\\' then '\\' :: processQuoted q rest2
        else '\\' :: processQuoted q (c2 :: rest2)
      | [] => ['\\']
    else if c = q then []
    else c :: processQuoted q rest

/-- The value treatment of `extract_tag_value`: when it starts with `"` or
`'`, strip the opening quote and run the escape loop; otherwise keep it. -/
def processValue (value : String) : String :=
  match value.toList with
  | [] => value
  | c :: rest =>
    if c = '"' ∨ c = '\'' then String.mk (processQuoted c rest) else value

/-- Everything after the first `=` of a token (`tag[tag.find('=') + 1:]`). -/
def afterFirstEq (tag : String) : String :=
  String.mk ((splitFirstChar '=' tag.toList).2.getD [])

/-- Extraction `Tags.extract_tag_value` without the converter/default wrapper: collect
the value of every tag that starts with `possible_tag=` for some variant of
`tagType`, and return the first one. -/
def extractTagValue (tags : List String) (tagType : String) : Option String :=
  (tags.filterMap (fun tag =>
    if (possibleTags tagType).any (fun p => pyStartsWith tag (p ++ "=")) then
      some (processValue (afterFirstEq tag))
    else none)).head?

/-- Extraction `Tags.extract_tag_value` with `default` and an optional `converter`
(modelled as a total `conv`; pass `id` for the Python `converter=None`). -/
def extractTagValueConv {α : Type} (tags : List String) (tagType : String)
    (default : α) (conv : String → α) : α :=
  match extractTagValue tags tagType with
  | some v => conv v
  | none => default

end Tags

/-! ### `src/parsing.py` — tag validation and quoted-tag joining -/

/-- The condition of `process_language_parts` for a tag that opens a quote
without closing it on the same token. -/
def needsJoin (t : String) : Bool :=
  (strContains t "=\"" || strContains t "='")
    && !((pyEndsWith t "\"" && strContains t "=\"")
          || (pyEndsWith t "'" && strContains t "='"))

/-- Python `quote_char = '"' if '="' in current_tag else "'"`. -/
def joinQuoteChar (t : String) : Char :=
  if strContains t "=\"" then '"' else '\''

/-- The validation loop of `process_language_parts`: any token containing
`docci-` anywhere is stripped at its first `=` and checked against the
registry; the first invalid one is returned. -/
def findInvalidTag : List String → Option String
  | [] => none
  | tag :: rest =>
    if ¬ strContains tag docciTagMarker then findInvalidTag rest
    else
      let t :=
        if strContains tag "=" then String.mk (splitFirstChar '=' tag.toList).1
        else tag
      if ¬ Tags.isValid t then some t else findInvalidTag rest

/-- The joining loop of `process_language_parts`: a token with an unclosed
`="`/`='` swallows following tokens (space-separated) up to the first token
containing the quote character.  When no closing token exists, the Python
index `i` is not advanced past the swallowed tokens, so they are processed
again — reproduced faithfully by recursing on `rest`. -/
def joinQuotedTags : List String → List String
  | [] => []
  | t :: rest =>
    if needsJoin t then
      let q := joinQuoteChar t
      let spanned := rest.span (fun s => !strContains s (String.mk [q]))
      match h : spanned.2 with
      | closer :: rest2 =>
        (spanned.1.foldl (fun acc s => acc ++ " " ++ s) t ++ " " ++ closer)
          :: joinQuotedTags rest2
      | [] =>
        (spanned.1.foldl (fun acc s => acc ++ " " ++ s) t) :: joinQuotedTags rest
    else t :: joinQuotedTags rest
  termination_by l => l.length
  decreasing_by
    · have hdw : ∀ (l : List String),
          (l.dropWhile (fun s => !strContains s (String.mk [q]))).length
            ≤ l.length := by
        intro l
        induction l with
        | nil => simp
        | cons a t ih =>
          by_cases hp : strContains a (String.mk [q]) <;>
            simp [List.dropWhile_cons, hp] <;> omega
      have h2 : spanned.2.length ≤ rest.length := by
        simpa [spanned, List.span_eq_take_drop] using hdw rest
      rw [h] at h2
      simp at h2 ⊢
      omega
    · simp
    · simp

/-- Function `process_language_parts` from `src/parsing.py` (an invalid `docci-` token
raises `ValueError`, modelled as `Except.error` carrying the message). -/
def processLanguageParts (languageParts : List String) : Except String (List String) :=
  if languageParts.length ≤ 1 then .ok []
  else
    let rawTags := languageParts.drop 1
    match findInvalidTag rawTags with
    | some t =>
      .error ("Invalid tag found in your documentation: " ++ t
        ++ ". Check the release notes for renamed tags")
    | none => .ok (joinQuotedTags rawTags)

/-! ### `src/config.py` — the `Config` contract -/

/-- The fields of a `Config` relevant to execution (`src/config.py`). -/
structure Config where
  paths : List String
  env_vars : List (String × String) := []
  pre_cmds : List String := []
  cleanup_cmds : List String := []
  ignore_commands : List String := []
  working_dir : Option String := none
  debugging : Bool := false

/-- A configuration JSON document, as a record of the optional keys the
format admits (§6 of the spec); a `none` field is an absent key. -/
structure ConfigJson where
  paths : List String
  env_vars : Option (List (String × String)) := none
  cleanup_cmds : Option (List String) := none
  pre_cmds : Option (List String) := none
  working_dir : Option String := none
  ignore_commands : Option (List String) := none
  debugging : Option Bool := none

/-- Function `Config.from_json` from `src/config.py`: reads `paths`, `env_vars`,
`cleanup_cmds`, `pre_cmds`, `working_dir` and `debugging` from the document.
It never reads the `ignore_commands` key, so the constructed `Config` keeps
the class default `[]`. -/
def Config.fromJson (j : ConfigJson) : Config :=
  { paths := j.paths
  , env_vars := j.env_vars.getD []
  , cleanup_cmds := j.cleanup_cmds.getD []
  , pre_cmds := j.pre_cmds.getD []
  , working_dir := j.working_dir
  , debugging := j.debugging.getD false
  , ignore_commands := [] }

/-- Python `os.path.join(working_dir, f) if config.working_dir else f` (for the
relative names used by docci tags the join inserts a separator). -/
def joinPath (wd : Option String) (f : String) : String :=
  match wd with
  | some w => w ++ "/" ++ f
  | none => f

/-! ### `src/managers/file_operations.py` — the File Mutator -/

/-- Python `content if content.endswith('\n') else content + '\n'`. -/
def normalizeContent (content : String) : String :=
  if pyEndsWith content "\n" then content else content ++ "\n"

/-- The `FileOperations` dataclass. -/
structure FileOperations where
  file_name : Option String := none
  content : String := ""
  insert_at_line : Option Int := none
  replace_lines : Option (Int × Option Int) := none
  file_reset : Bool := false
  if_file_not_exists : String := ""

/-- Python slice assignment `l[s:e] = [x]` for non-negative `s`, `e`:
drop the elements with indices in `[min s len, max (min s len) (min e len))`
and put `x` there. -/
def pySliceReplace {α : Type} (l : List α) (s e : Nat) (x : α) : List α :=
  l.take s ++ [x] ++ l.drop (max s (min e l.length))

/-- Method `FileOperations._replace_lines`: both `start` and `end` are decremented
(`# line based, not index :)`), `end` values `≤ 0` become `None`, and a
decremented `end` of `0` is falsy in Python, so `(start, 1)` also takes the
single-line branch.  In the slice branch the decremented `end` clamps to
`len(lines)`. -/
def FileOperations.replaceLinesOp (fo : FileOperations) (lines : List String)
    (content : String) : List String :=
  match fo.replace_lines with
  | none => lines
  | some (start, endo) =>
    let start0 : Int := if start > 0 then start - 1 else 0
    let end0 : Option Int :=
      match endo with
      | some e => if e > 0 then some (e - 1) else none
      | none => none
    let singleLine : List String :=
      if start0 ≥ lines.length then lines ++ [content]
      else lines.set start0.toNat content
    match end0 with
    | some e0 =>
      if e0 = 0 then singleLine
      else
        let e1 : Int := if e0 ≥ lines.length then (lines.length : Int) else e0
        pySliceReplace lines start0.toNat e1.toNat content
    | none => singleLine

/-- The `insert_at_line` step of `FileOperations.handle_file_content`
(lines 43–48): `0` is falsy, a positive `N` becomes index `N`, a negative `N`
becomes `len(lines) + N + 1`, the index clamps into `[0, len(lines)]`, and
`lines.insert(idx, content)` puts the block before that 0-based index. -/
def FileOperations.insertLinesOp (fo : FileOperations) (lines : List String)
    (content : String) : List String :=
  match fo.insert_at_line with
  | none => lines
  | some n =>
    if n = 0 then lines
    else
      let il : Int := if n > 0 then n else lines.length + n + 1
      let il2 : Int := max 0 (min il lines.length)
      lines.insertIdx il2.toNat content

/-- The in-memory part of `handle_file_content` once the file's lines are
read: insert first, then replace, both with the newline-normalized content. -/
def FileOperations.contentPipeline (fo : FileOperations) (lines : List String) :
    List String :=
  let cw := normalizeContent fo.content
  fo.replaceLinesOp (fo.insertLinesOp lines cw) cw

/-! ### `src/managers/cmd.py` — the block execution engine

The effects of actually spawning a shell are oracles: `ShellCmd` carries, for
every attempt number, the exit status and the (decoded, `\r\n`-normalized,
stripped) captured output the spawned child would produce, plus the `env`
dump lines a `source` command prints after `__DOCCI_ENV_VAR_DELIM__` (`none`
when the sourced script fails before the delimiter).  `SysOracle` answers the
`platform` / `os.path.exists` / `shutil.which` queries of the skip gates. -/

/-- Dataclass `DelayManager` (`src/managers/delay.py`); delays in seconds. -/
structure DelayManager where
  post_delay : Int := 0
  cmd_delay : Int := 0

/-- One command line of a block together with the oracle describing what the
shell would do with it. -/
structure ShellCmd where
  text : String
  attemptStatus : Nat → Int := fun _ => 0
  attemptOutput : Nat → String := fun _ => ""
  dumpLines : Option (List String) := none

/-- The `CommandExecutor` dataclass of `src/managers/cmd.py`. -/
structure CommandExecutor where
  commands : List ShellCmd
  background : Bool := false
  output_contains : Option String := none
  expect_failure : Bool := false
  machine_os : Option String := none
  binary : Option String := none
  ignored : Bool := false
  delay_manager : Option DelayManager := none
  if_file_not_exists : String := ""
  retry_count : Nat := 0
  replace_text : Option String := none

/-- Oracle for the system queries made by the block skip gates. -/
structure SysOracle where
  osName : String := "linux"
  fileExists : String → Bool := fun _ => false
  binaryOnPath : String → Bool := fun _ => false

/-- The default `background_exclude_commands` of `run_commands`. -/
def backgroundExcludeCommands : List String :=
  ["cp", "export", "cd", "mkdir", "echo", "cat"]

/-- Method `CommandExecutor._should_skip_codeblock_execution`. -/
def shouldSkipCodeblock (cx : CommandExecutor) (cfg : Config) (sys : SysOracle) : Bool :=
  cx.ignored
    || (cx.if_file_not_exists ≠ ""
         && sys.fileExists (joinPath cfg.working_dir cx.if_file_not_exists))
    || (match cx.machine_os with
        | some m => m ≠ sys.osName
        | none => false)
    || (match cx.binary with
        | some b => sys.binaryOnPath b
        | none => false)

/-- Method `CommandExecutor._should_skip_cmd_execution`: empty lines, `#` comments,
and commands literally listed in `config.ignore_commands`. -/
def shouldSkipCmd (cfg : Config) (command : String) : Bool :=
  pyTrim command = "" || pyStartsWith (pyTrim command) "#"
    || cfg.ignore_commands.contains command

/-- Method `CommandExecutor._should_run_in_background`. -/
def shouldRunInBackground (cx : CommandExecutor) (command : String) : Bool :=
  cx.background && ¬ backgroundExcludeCommands.contains (firstWord command)

/-- One foreground run of `execute_command` (`src/execute.py`) on the
(possibly rewritten) command `cmdText`, at a given attempt number:
`validate_command` failures return `(1, error)` without spawning; a `source`
command is rewritten with `&& echo DELIM && env` (the suffix cannot introduce
the `forge script` pitfall, so validation is unchanged), always reports
`(0, "")`, and yields the parsed env dump to merge; anything else reports the
spawn oracle's status and output.  The third component is the list of
key/value pairs `execute_command` merges into `os.environ` (the application
of `dict_diff(os.environ, new_vars)` is extensionally `env.update(new_vars)`,
since updating a key with its unchanged value is the identity). -/
def executeCommandFg (c : ShellCmd) (cmdText : String) (attempt : Nat) :
    Int × String × List (String × String) :=
  match validate_command cmdText with
  | some err => (1, err, [])
  | none =>
    if isSourceCmd cmdText then
      match c.dumpLines with
      | some ls => (0, "", parseEnvDump ls)
      | none => (0, "", [])
    else
      (c.attemptStatus attempt, c.attemptOutput attempt, [])

/-- The outcome of `CommandExecutor._execute_command`, with ghost
observables: the env pairs merged by `source` handling, the number of
attempts performed, and the seconds slept by `_handle_retry_cmd_delay`
between attempts. -/
structure ExecOutcome where
  success : Bool
  output : Option String
  mergedPairs : List (String × String) := []
  attempts : Nat := 0
  sleeps : List Int := []

/-- The seconds slept by `_handle_retry_cmd_delay` (when it sleeps at all):
`cmd_delay` when a delay manager is set with a positive `cmd_delay`,
otherwise the default `2`. -/
def retryDelay (dm : Option DelayManager) : Int :=
  match dm with
  | some d => if d.cmd_delay > 0 then d.cmd_delay else 2
  | none => 2

/-- Message `f"Error ({status=}) {command=} failed with output: {output}"` rendered
for a plain command string. -/
def mkFailMsg (cmdText : String) (st : Int) (out : String) : String :=
  s!"Error (status={st}) command='{cmdText}' failed with output: {out}"

/-- The retry loop of `_execute_command` (lines 149–199).  `fuel + attempt`
is kept equal to `max_attempts + 1`, so the Python test
`attempt >= max_attempts` is `fuel = 0` after pattern matching `fuel + 1`.
`_handle_retry_cmd_delay` skips the sleep entirely when the failed attempt
was the first one (`if attempt == 1: return`). -/
def attemptLoop (cx : CommandExecutor) (c : ShellCmd) (cmdText : String) :
    Nat → Nat → ExecOutcome
  | 0, _ =>
    -- line 202 `return success, output` is unreachable (max_attempts ≥ 1)
    { success := false, output := none }
  | fuel + 1, attempt =>
    let r := executeCommandFg c cmdText attempt
    let st := r.1
    let out := r.2.1
    let merged := r.2.2
    let error := st ≠ 0
    let success := if cx.expect_failure then error else ¬ error
    if st ≠ 0 then
      if fuel = 0 then
        { success := false
        , output := some (mkFailMsg cmdText st out)
        , mergedPairs := merged
        , attempts := attempt
        , sleeps := [] }
      else
        let rest := attemptLoop cx c cmdText fuel (attempt + 1)
        { rest with
            mergedPairs := merged ++ rest.mergedPairs
            sleeps :=
              (if attempt = 1 then [] else [retryDelay cx.delay_manager]) ++ rest.sleeps }
    else
      { success := success
      , output := some out
      , mergedPairs := merged
      , attempts := attempt
      , sleeps := [] }

/-- Method `CommandExecutor._execute_command`: the `replace_text` rewrite (with its
two error returns), the immediate `(True, None)` return for background
spawns, and the retry loop for foreground commands. -/
def executeCommandStep (cx : CommandExecutor) (c : ShellCmd) (cmdBg : Bool)
    (env : EnvMap) : ExecOutcome :=
  let rewritten : Except String String :=
    match cx.replace_text with
    | none => .ok c.text
    | some rt =>
      let parts := pySplitOnChar ';' rt
      if parts.length ≠ 2 then
        .error ("Error: invalid format for docci-replace-text. "
          ++ "Expected format: 'text;ENV_VAR', got '" ++ rt ++ "'")
      else
        let textToReplace := (parts.get? 0).getD ""
        let envVarName := (parts.get? 1).getD ""
        match env envVarName with
        | none =>
          .error ("Error: environment variable '" ++ envVarName
            ++ "' not set. Required by docci-replace-text.")
        | some v => .ok (pyReplace c.text textToReplace v)
  match rewritten with
  | .error msg => { success := false, output := some msg }
  | .ok cmdText =>
    if cmdBg then
      -- the loop body spawns the StreamingProcess and returns `True, None`
      { success := true, output := none, attempts := 1 }
    else
      attemptLoop cx c cmdText (max 1 (cx.retry_count + 1)) 1

/-- A processed (non-skipped) command of a block, with ghost observables for
the environment-persistence invariant: the env pairs `parse_env` merged
before the spawn, the pairs `source` handling merged after it, and the
parent-environment snapshot the command is spawned with
(`os.environ.copy()`). -/
structure CmdEvent where
  text : String
  parsePairs : List (String × String)
  mergedPairs : List (String × String)
  envAtSpawn : EnvMap

/-- Everything a command may assign into the parent environment, in
application order. -/
def CmdEvent.emittedPairs (e : CmdEvent) : List (String × String) :=
  e.parsePairs ++ e.mergedPairs

/-- The loop state of `run_commands` (`src/managers/cmd.py`, lines 38–76). -/
structure BlockState where
  env : EnvMap
  response : String := ""
  hadError : Bool := false
  lastOutput : String := ""
  allOutputs : List String := []

/-- The spawn event of a processed command: the `parse_env` pairs are merged
into the environment before the spawn (`os.environ.update(envs)`), the
snapshot is taken (`os.environ.copy()`), and `_execute_command` reports the
pairs that `source` handling merges back afterwards. -/
def mkEvent (subst : String → String) (cx : CommandExecutor) (env : EnvMap)
    (c : ShellCmd) : CmdEvent :=
  let ps := parse_env subst c.text
  let env1 := envUpdate env ps
  { text := c.text
  , parsePairs := ps
  , mergedPairs :=
      (executeCommandStep cx c (shouldRunInBackground cx c.text) env1).mergedPairs
  , envAtSpawn := env1 }

/-- One iteration of the command loop of `run_commands`: skip check, the
`os.environ.update(parse_env(command))` merge, the background decision, the
call into `_execute_command` with a snapshot of the environment, output
bookkeeping and the `"Error:" in output` break.  Returns the new state, the
spawn event (`none` when skipped) and whether the loop `break`s. -/
def procCmd (subst : String → String) (cx : CommandExecutor) (cfg : Config)
    (c : ShellCmd) (st : BlockState) : BlockState × Option CmdEvent × Bool :=
  if shouldSkipCmd cfg c.text then (st, none, false)
  else
    let ev := mkEvent subst cx st.env c
    let oc := executeCommandStep cx c (shouldRunInBackground cx c.text) ev.envAtSpawn
    let brk := ¬ oc.success
      && (match oc.output with
          | some o => o ≠ "" && strContains o "Error:"
          | none => false)
    ({ env := envUpdate ev.envAtSpawn ev.mergedPairs
     , response := if brk then oc.output.getD "" else st.response
     , hadError := st.hadError || ¬ oc.success
     , lastOutput := oc.output.getD ""
     , allOutputs :=
         st.allOutputs ++ (match oc.output with | some o => [o] | none => []) }
    , some ev, brk)

/-- The command loop of `run_commands`, also collecting the spawn events. -/
def runCmdList (subst : String → String) (cx : CommandExecutor) (cfg : Config) :
    List ShellCmd → BlockState → BlockState × List CmdEvent
  | [], st => (st, [])
  | c :: cs, st =>
    let r := procCmd subst cx cfg c st
    if r.2.2 then (r.1, r.2.1.toList)
    else
      let rest := runCmdList subst cx cfg cs r.1
      (rest.1, r.2.1.toList ++ rest.2)

/-- Python `"\n".join`. -/
def joinNl : List String → String
  | [] => ""
  | x :: xs => xs.foldl (fun a s => a ++ "\n" ++ s) x

/-- The diagnostic of the `output_contains` block check. -/
def outputContainsErr (x : String) : String :=
  "Error: `" ++ x ++ "` is not found in any command output"

/-- The post-loop part of `run_commands` (lines 81–97): the `expect_failure`
verdict, the `output_contains` check over the `"\n"`-joined captured outputs
(only when `output_contains` and `all_outputs` are both truthy), and the
final `response if response else last_output`. -/
def blockVerdict (cx : CommandExecutor) (st : BlockState) : String :=
  if cx.expect_failure then
    if st.hadError then "" else "Error: expected failure but command succeeded"
  else
    let fallback := if st.response ≠ "" then st.response else st.lastOutput
    match cx.output_contains with
    | some x =>
      if x ≠ "" ∧ st.allOutputs ≠ [] then
        if ¬ strContains (joinNl st.allOutputs) x then outputContainsErr x
        else fallback
      else fallback
    | none => fallback

/-- Method `CommandExecutor.run_commands`, with the loop state and spawn events
exposed: the block skip gates short-circuit to `""`, otherwise the command
loop runs and the post-loop verdict is computed. -/
def CommandExecutor.runFull (cx : CommandExecutor) (subst : String → String)
    (cfg : Config) (sys : SysOracle) (env0 : EnvMap) :
    String × BlockState × List CmdEvent :=
  if shouldSkipCodeblock cx cfg sys then ("", { env := env0 }, [])
  else
    let r := runCmdList subst cx cfg cx.commands { env := env0 }
    (blockVerdict cx r.1, r.1, r.2)

/-- The string `run_commands` returns. -/
def CommandExecutor.runCommands (cx : CommandExecutor) (subst : String → String)
    (cfg : Config) (sys : SysOracle) (env0 : EnvMap) : String :=
  (cx.runFull subst cfg sys env0).1

/-- A run: the driver (`do_logic` in `main.py`, §4.11) executes the blocks of
the run strictly serially, threading the one process environment through, and
aborts on the first truthy per-block return.  Returns the concatenated spawn
events, the final environment and the error, if any. -/
def runBlocks (subst : String → String) (cfg : Config) (sys : SysOracle) :
    List CommandExecutor → EnvMap → List CmdEvent × EnvMap × Option String
  | [], env => ([], env, none)
  | b :: bs, env =>
    let r := b.runFull subst cfg sys env
    if r.1 ≠ "" then (r.2.2, r.2.1.env, some r.1)
    else
      let rest := runBlocks subst cfg sys bs r.2.1.env
      (r.2.2 ++ rest.1, rest.2.1, rest.2.2)

/-! ### Invariant-level definitions -/

/-- The environment-threading shape of a list of spawn events: each event's
snapshot is the previous environment updated with its `parse_env` pairs, and
the next environment is the snapshot updated with the event's `source`-merged
pairs. -/
def EnvChain : EnvMap → List CmdEvent → EnvMap → Prop
  | env, [], envF => envF = env
  | env, ev :: evs, envF =>
    ev.envAtSpawn = envUpdate env ev.parsePairs ∧
      EnvChain (envUpdate ev.envAtSpawn ev.mergedPairs) evs envF

/-- Spec-side (claim C7): escape a raw value for inclusion between `q`
quotes — the quote character and the backslash are backslash-escaped,
everything else is copied. -/
def specEscapeQuoted (q : Char) (s : List Char) : List Char :=
  s.bind (fun c =>
    if c = q then ['\\', q]
    else if c = '\\' then ['\\', '\\']
    else [c])

/-- Spec-side (claim C7): a token carries a value for the requested tag when
it starts with `variant=` for the canonical name or one of its aliases. -/
def specTagMatches (tagType : String) (tok : String) : Bool :=
  (Tags.possibleTags tagType).any (fun p => pyStartsWith tok (p ++ "="))

/-! ### Concrete instances used by the witnesses and counterexamples -/

/-- The empty parent environment. -/
def envEmpty : EnvMap := fun _ => none

/-- A minimal configuration. -/
def wConfig : Config := { paths := [] }

/-- The trivial system oracle: nothing installed, no files present. -/
def wSys : SysOracle := {}

/-- A placeholder event (only used as the default of `List.get?`). -/
def defaultEvent : CmdEvent :=
  { text := "", parsePairs := [], mergedPairs := [], envAtSpawn := envEmpty }

/-- Run for claim C1: `export FOO=42` in one block, `echo $FOO` in the
next. -/
def c1Block1 : CommandExecutor := { commands := [{ text := "export FOO=42" }] }

/-- Second block of the C1 run. -/
def c1Block2 : CommandExecutor :=
  { commands := [{ text := "echo $FOO", attemptOutput := fun _ => "42" }] }

/-- The spawn events of the C1 run. -/
def c1Events : List CmdEvent :=
  (runBlocks id wConfig wSys [c1Block1, c1Block2] envEmpty).1

/-- The `n`-th spawn event of the C1 run. -/
def c1Ev (n : Nat) : CmdEvent := (c1Events.get? n).getD defaultEvent

/-- Claim C2 counterexample block: `output_contains` is set but the only
command is a comment, so no output is ever captured. -/
def c2Block : CommandExecutor :=
  { commands := [{ text := "# comment" }], output_contains := some "ZZZ" }

/-- Claim C2 witness block: one command whose captured output misses the
expected substring. -/
def c2wBlock : CommandExecutor :=
  { commands := [{ text := "echo hello", attemptOutput := fun _ => "hello" }]
  , output_contains := some "ZZZ" }

/-- Claim C3: an expect-failure block whose only command exits 0. -/
def c3TrueBlock : CommandExecutor :=
  { commands := [{ text := "true" }], expect_failure := true }

/-- Claim C3: an expect-failure block whose only command exits 1. -/
def c3FalseBlock : CommandExecutor :=
  { commands := [{ text := "false", attemptStatus := fun _ => 1 }]
  , expect_failure := true }

/-- Claim C3: an expect-failure block whose only command is a comment, so no
command is ever executed. -/
def c3CommentBlock : CommandExecutor :=
  { commands := [{ text := "# nothing runs" }], expect_failure := true }

/-- A command that fails on every attempt. -/
def c4FailCmd : ShellCmd :=
  { text := "flaky", attemptStatus := fun _ => 1, attemptOutput := fun _ => "boom" }

/-- Claim C4 counterexample: `retry_count = 1` on an always-failing command. -/
def c4Block1 : CommandExecutor := { commands := [c4FailCmd], retry_count := 1 }

/-- Claim C4 witness: `retry_count = 2` on an always-failing command. -/
def c4Block2 : CommandExecutor := { commands := [c4FailCmd], retry_count := 2 }

/-- A `source` command whose script fails: no delimiter, no env dump. -/
def c10SrcFail : ShellCmd := { text := "source bad.sh" }

/-- Claim C10 counterexample: an expect-failure block whose only command is a
failing `source`. -/
def c10Block : CommandExecutor :=
  { commands := [c10SrcFail], expect_failure := true }

/-- A `source` command that succeeds and defines `NEW=1`. -/
def c10SrcOk : ShellCmd := { text := "source good.sh", dumpLines := some ["NEW=1"] }

/-! ## Theorems -/

/-! ### Environment update lemmas -/

theorem envUpdate_append (e : EnvMap) (a b : List (String × String)) :
    envUpdate e (a ++ b) = envUpdate (envUpdate e a) b := by
  simp [envUpdate, List.foldl_append]

theorem lastVal_foldl (ps : List (String × String)) (k : String) (a : Option String) :
    ps.foldl (fun acc p => if p.1 = k then some p.2 else acc) a
      = match lastVal ps k with
        | some v => some v
        | none => a := by
  induction ps generalizing a with
  | nil => simp [lastVal]
  | cons p t ih =>
    simp only [lastVal, List.foldl_cons] at *
    rw [ih, ih (if p.1 = k then some p.2 else none)]
    cases h : List.foldl (fun acc p => if p.1 = k then some p.2 else acc) none t <;>
      by_cases hp : p.1 = k <;> simp [hp, h]

/-- Looking a key up after a batched update: the last assignment to `k` in
`ps` wins, otherwise the old binding survives. -/
theorem envUpdate_lookup (e : EnvMap) (ps : List (String × String)) (k : String) :
    envUpdate e ps k
      = match lastVal ps k with
        | some v => some v
        | none => e k := by
  induction ps generalizing e with
  | nil => simp [envUpdate, lastVal]
  | cons p t ih =>
    simp only [envUpdate, List.foldl_cons] at *
    rw [ih (envSet e p.1 p.2)]
    have hstep : lastVal (p :: t) k
        = match lastVal t k with
          | some v => some v
          | none => if p.1 = k then some p.2 else none := by
      simp only [lastVal, List.foldl_cons]
      rw [lastVal_foldl]
      rfl
    rw [hstep]
    cases h : lastVal t k with
    | some v => simp
    | none =>
      by_cases hp : p.1 = k
      · simp [envSet, hp]
      · simp only [hp, if_false, envSet]
        simp [Ne.symm hp]

theorem envUpdate_lookup_of_not_mem (e : EnvMap) (ps : List (String × String))
    (k : String) (h : ∀ p ∈ ps, p.1 ≠ k) : envUpdate e ps k = e k := by
  rw [envUpdate_lookup]
  have hnone : lastVal ps k = none := by
    induction ps with
    | nil => simp [lastVal]
    | cons p t ih =>
      simp only [lastVal, List.foldl_cons]
      rw [lastVal_foldl]
      have hp : p.1 ≠ k := h p (by simp)
      have ht : lastVal t k = none := ih (fun q hq => h q (by simp [hq]))
      simp [ht, hp]
  simp [hnone]

theorem envUpdate_lookup_of_lastVal (e : EnvMap) (ps : List (String × String))
    (k v : String) (h : lastVal ps k = some v) : envUpdate e ps k = some v := by
  rw [envUpdate_lookup, h]

/-! ### The environment chain of a run -/

theorem mkEvent_envAtSpawn (subst : String → String) (cx : CommandExecutor)
    (env : EnvMap) (c : ShellCmd) :
    (mkEvent subst cx env c).envAtSpawn
      = envUpdate env (mkEvent subst cx env c).parsePairs := rfl

theorem envChain_append (a b : List CmdEvent) (env envM envF : EnvMap)
    (h1 : EnvChain env a envM) (h2 : EnvChain envM b envF) :
    EnvChain env (a ++ b) envF := by
  induction a generalizing env with
  | nil =>
    have hM : envM = env := h1
    subst hM
    simpa using h2
  | cons ev evs ih =>
    obtain ⟨hev, hrest⟩ := h1
    exact ⟨hev, ih _ hrest⟩

theorem runCmdList_chain (subst : String → String) (cx : CommandExecutor)
    (cfg : Config) (cs : List ShellCmd) (st : BlockState) :
    EnvChain st.env (runCmdList subst cx cfg cs st).2
      (runCmdList subst cx cfg cs st).1.env := by
  induction cs generalizing st with
  | nil => simp [runCmdList, EnvChain]
  | cons c cs ih =>
    simp only [runCmdList]
    by_cases hsk : shouldSkipCmd cfg c.text
    · simp only [procCmd, hsk, if_true]
      simp only [Bool.false_eq_true, if_false, Option.toList_none, List.nil_append]
      exact ih st
    · simp only [procCmd, hsk, if_false]
      set ev := mkEvent subst cx st.env c with hev
      set oc := executeCommandStep cx c (shouldRunInBackground cx c.text) ev.envAtSpawn
        with hoc
      cases hbrk :
          (¬ oc.success
            && (match oc.output with
                | some o => o ≠ "" && strContains o "Error:"
                | none => false)) with
      | true =>
        simp only [if_true]
        exact ⟨rfl, rfl⟩
      | false =>
        simp only [Bool.false_eq_true, if_false, Option.toList_some,
          List.singleton_append]
        refine ⟨rfl, ?_⟩
        exact ih
          { env := envUpdate ev.envAtSpawn ev.mergedPairs
          , response := st.response
          , hadError := st.hadError || ¬ oc.success
          , lastOutput := oc.output.getD ""
          , allOutputs :=
              st.allOutputs ++ (match oc.output with | some o => [o] | none => []) }

theorem runFull_chain (cx : CommandExecutor) (subst : String → String)
    (cfg : Config) (sys : SysOracle) (env0 : EnvMap) :
    EnvChain env0 (cx.runFull subst cfg sys env0).2.2
      (cx.runFull subst cfg sys env0).2.1.env := by
  unfold CommandExecutor.runFull
  cases hskip : shouldSkipCodeblock cx cfg sys with
  | true =>
    simp only [if_true]
    rfl
  | false =>
    simp only [Bool.false_eq_true, if_false]
    exact runCmdList_chain subst cx cfg cx.commands { env := env0 }

theorem runBlocks_chain (subst : String → String) (cfg : Config) (sys : SysOracle)
    (blocks : List CommandExecutor) (env0 : EnvMap) :
    EnvChain env0 (runBlocks subst cfg sys blocks env0).1
      (runBlocks subst cfg sys blocks env0).2.1 := by
  induction blocks generalizing env0 with
  | nil => rfl
  | cons b bs ih =>
    simp only [runBlocks]
    by_cases herr : (b.runFull subst cfg sys env0).1 ≠ ""
    · rw [if_pos herr]
      exact runFull_chain b subst cfg sys env0
    · rw [if_neg herr]
      exact envChain_append _ _ _ _ _ (runFull_chain b subst cfg sys env0)
        (ih (b.runFull subst cfg sys env0).2.1.env)

/-- If no event before index `j` (and not `j`'s own `parse_env` pairs) touches
key `k`, the snapshot at `j` still holds the chain's initial binding. -/
theorem envChain_spawn_lookup (k : String) :
    ∀ (evs : List CmdEvent) (env envF : EnvMap), EnvChain env evs envF →
    ∀ (j : Nat) (ej : CmdEvent), evs.get? j = some ej →
    (∀ (l : Nat) (el : CmdEvent), l < j → evs.get? l = some el →
      ∀ p ∈ el.emittedPairs, p.1 ≠ k) →
    (∀ p ∈ ej.parsePairs, p.1 ≠ k) →
    ej.envAtSpawn k = env k := by
  intro evs
  induction evs with
  | nil => intro env envF _ j ej hj; simp at hj
  | cons ev evs ih =>
    intro env envF hchain j ej hj hmid hself
    obtain ⟨hspawn, hrest⟩ := hchain
    cases j with
    | zero =>
      simp only [List.get?_cons_zero, Option.some_inj] at hj
      subst hj
      rw [hspawn]
      exact envUpdate_lookup_of_not_mem env ev.parsePairs k hself
    | succ j' =>
      simp only [List.get?_cons_succ] at hj
      have h0 : ∀ p ∈ ev.emittedPairs, p.1 ≠ k :=
        hmid 0 ev (Nat.succ_pos j') (by simp)
      have h0p : ∀ p ∈ ev.parsePairs, p.1 ≠ k := by
        intro p hp
        exact h0 p (by simp [CmdEvent.emittedPairs, hp])
      have h0m : ∀ p ∈ ev.mergedPairs, p.1 ≠ k := by
        intro p hp
        exact h0 p (by simp [CmdEvent.emittedPairs, hp])
      have henv1 : envUpdate ev.envAtSpawn ev.mergedPairs k = env k := by
        rw [envUpdate_lookup_of_not_mem _ _ _ h0m, hspawn]
        exact envUpdate_lookup_of_not_mem env ev.parsePairs k h0p
      have := ih _ envF hrest j' ej hj
        (fun l el hl hel => hmid (l + 1) el (Nat.succ_lt_succ hl) (by simpa using hel))
        hself
      rw [this, henv1]

/-- The persistence core: once event `i` leaves `k ↦ v` behind and no later
event up to `j` touches `k` (nor does `j`'s own `parse_env` merge), the
snapshot of event `j` maps `k` to `v`. -/
theorem envChain_persistence (k v : String) :
    ∀ (evs : List CmdEvent) (env envF : EnvMap), EnvChain env evs envF →
    ∀ (i j : Nat) (ei ej : CmdEvent), i < j →
    evs.get? i = some ei → evs.get? j = some ej →
    lastVal ei.emittedPairs k = some v →
    (∀ (l : Nat) (el : CmdEvent), i < l → l < j → evs.get? l = some el →
      ∀ p ∈ el.emittedPairs, p.1 ≠ k) →
    (∀ p ∈ ej.parsePairs, p.1 ≠ k) →
    ej.envAtSpawn k = some v := by
  intro evs
  induction evs with
  | nil => intro env envF _ i j ei ej _ hi; simp at hi
  | cons ev evs ih =>
    intro env envF hchain i j ei ej hij hi hj hemit hmid hself
    obtain ⟨hspawn, hrest⟩ := hchain
    cases i with
    | zero =>
      simp only [List.get?_cons_zero, Option.some_inj] at hi
      subst hi
      obtain ⟨j', rfl⟩ : ∃ j', j = j' + 1 := ⟨j - 1, by omega⟩
      simp only [List.get?_cons_succ] at hj
      have henv1 : envUpdate ev.envAtSpawn ev.mergedPairs k = some v := by
        rw [hspawn, ← envUpdate_append]
        exact envUpdate_lookup_of_lastVal env ev.emittedPairs k v hemit
      have := envChain_spawn_lookup k evs _ envF hrest j' ej hj
        (fun l el hl hel => hmid (l + 1) el (Nat.succ_pos l) (Nat.succ_lt_succ hl)
          (by simpa using hel))
        hself
      rw [this, henv1]
    | succ i' =>
      obtain ⟨j', rfl⟩ : ∃ j', j = j' + 1 := ⟨j - 1, by omega⟩
      simp only [List.get?_cons_succ] at hi hj
      exact ih _ envF hrest i' j' ei ej (by omega) hi hj hemit
        (fun l el hl1 hl2 hel =>
          hmid (l + 1) el (Nat.succ_lt_succ hl1) (Nat.succ_lt_succ hl2)
            (by simpa using hel))
        hself

/-- C1 — Env persistence (P1): in any run, if the `i`-th spawned command
emits `k = v` — through an `export KEY=VALUE` line, a standalone `KEY=VALUE`
line, an inline `K1=V1 K2=V2 cmd` prefix (all three are the non-empty results
of `parse_env`, merged into the parent environment before the spawn), or a
successful `source` whose env dump defines `k` (merged after the spawn) — and
no later spawned command up to the `j`-th emits `k` (nor do the `j`-th
command's own `parse_env` pairs), then the parent-environment snapshot at the
spawn of the `j`-th command maps `k` to `v`. -/
theorem c1_env_persistence (subst : String → String) (cfg : Config)
    (sys : SysOracle) (blocks : List CommandExecutor) (env0 : EnvMap)
    (i j : Nat) (ei ej : CmdEvent) (k v : String)
    (hij : i < j)
    (hi : (runBlocks subst cfg sys blocks env0).1.get? i = some ei)
    (hj : (runBlocks subst cfg sys blocks env0).1.get? j = some ej)
    (hemit : lastVal ei.emittedPairs k = some v)
    (hmid : ∀ (l : Nat) (el : CmdEvent), i < l → l < j →
      (runBlocks subst cfg sys blocks env0).1.get? l = some el →
      ∀ p ∈ el.emittedPairs, p.1 ≠ k)
    (hself : ∀ p ∈ ej.parsePairs, p.1 ≠ k) :
    ej.envAtSpawn k = some v :=
  envChain_persistence k v _ env0 _
    (runBlocks_chain subst cfg sys blocks env0)
    i j ei ej hij hi hj hemit hmid hself

/-- Witness for C1 on a concrete two-block run: block 1 runs
`export FOO=42`, block 2 runs `echo $FOO`; the snapshot at the spawn of the
second command maps `FOO` to `42`. -/
theorem c1_env_persistence_witness :
    lastVal (c1Ev 0).emittedPairs "FOO" = some "42" ∧
      (c1Ev 1).envAtSpawn "FOO" = some "42" := by
  have hget : ∀ n : Nat, n < 2 →
      (runBlocks id wConfig wSys [c1Block1, c1Block2] envEmpty).1.get? n
        = some (c1Ev n) := by
    intro n hn
    cases h : (runBlocks id wConfig wSys [c1Block1, c1Block2] envEmpty).1.get? n with
    | none =>
      rw [List.get?_eq_none] at h
      have hlen :
          (runBlocks id wConfig wSys [c1Block1, c1Block2] envEmpty).1.length = 2 := by
        decide
      omega
    | some w =>
      rw [List.get?_eq_getElem?] at h
      simp [c1Ev, c1Events, h]
  refine ⟨by decide, ?_⟩
  exact c1_env_persistence id wConfig wSys [c1Block1, c1Block2] envEmpty
    0 1 (c1Ev 0) (c1Ev 1) "FOO" "42" (by decide)
    (hget 0 (by decide)) (hget 1 (by decide)) (by decide)
    (by intro l el h1 h2; exact absurd h2 (by omega))
    (by
      intro p hp
      have hpp : (c1Ev 1).parsePairs = [] := by decide
      rw [hpp] at hp
      cases hp)

/-! ### C2 — the `output_contains` block check -/

theorem outputContainsErr_ne_empty (x : String) : outputContainsErr x ≠ "" := by
  intro h
  have hd := congrArg String.data h
  simp [outputContainsErr, String.data_append] at hd

/-- Loop invariant of `run_commands`: `response` and `last_output` are always
either empty or one of the captured outputs. -/
theorem runCmdList_outputs (subst : String → String) (cx : CommandExecutor)
    (cfg : Config) :
    ∀ (cs : List ShellCmd) (st : BlockState),
    (st.response = "" ∨ st.response ∈ st.allOutputs) →
    (st.lastOutput = "" ∨ st.lastOutput ∈ st.allOutputs) →
    (((runCmdList subst cx cfg cs st).1.response = "" ∨
        (runCmdList subst cx cfg cs st).1.response
          ∈ (runCmdList subst cx cfg cs st).1.allOutputs) ∧
      ((runCmdList subst cx cfg cs st).1.lastOutput = "" ∨
        (runCmdList subst cx cfg cs st).1.lastOutput
          ∈ (runCmdList subst cx cfg cs st).1.allOutputs)) := by
  intro cs
  induction cs with
  | nil =>
    intro st hr hl
    exact ⟨hr, hl⟩
  | cons c cs ih =>
    intro st hr hl
    simp only [runCmdList]
    by_cases hsk : shouldSkipCmd cfg c.text
    · simp only [procCmd, hsk, if_true]
      simp only [Bool.false_eq_true, if_false, Option.toList_none, List.nil_append]
      exact ih st hr hl
    · simp only [procCmd, hsk, if_false]
      set ev := mkEvent subst cx st.env c with hev
      set oc := executeCommandStep cx c (shouldRunInBackground cx c.text) ev.envAtSpawn
        with hoc
      cases hbrk :
          (¬ oc.success
            && (match oc.output with
                | some o => o ≠ "" && strContains o "Error:"
                | none => false)) with
      | true =>
        simp only [if_true]
        cases hout : oc.output with
        | none => rw [hout] at hbrk; simp at hbrk
        | some o =>
          rw [hout] at hbrk
          simp only [Bool.and_eq_true, decide_eq_true_eq] at hbrk
          constructor
          · right
            simp [hout, List.mem_append]
          · right
            simp [hout, List.mem_append]
      | false =>
        simp only [Bool.false_eq_true, if_false]
        apply ih
        · simp only []
          rcases hr with hr | hr
          · left; exact hr
          · right; exact List.mem_append_left _ hr
        · simp only []
          cases hout : oc.output with
          | none => left; rfl
          | some o => right; simp [hout, List.mem_append]

/-- C2 (amended) — `output_contains` verdict: when `expect_failure` is unset,
`output_contains` is a non-empty string `x`, and no captured output equals
the diagnostic text itself, `run_commands` returns the diagnostic
``Error: `x` is not found in any command output`` iff at least one output was
captured and `x` does not occur in the `"\n"`-joined captured outputs of the
block. -/
theorem c2_output_contains_amended (subst : String → String) (cfg : Config)
    (sys : SysOracle) (cx : CommandExecutor) (env0 : EnvMap) (x : String)
    (hef : cx.expect_failure = false)
    (hoc : cx.output_contains = some x)
    (hx : x ≠ "")
    (hcol : outputContainsErr x ∉ (cx.runFull subst cfg sys env0).2.1.allOutputs) :
    cx.runCommands subst cfg sys env0 = outputContainsErr x
      ↔ ((cx.runFull subst cfg sys env0).2.1.allOutputs ≠ [] ∧
          strContains (joinNl (cx.runFull subst cfg sys env0).2.1.allOutputs) x
            = false) := by
  unfold CommandExecutor.runCommands CommandExecutor.runFull at *
  cases hskip : shouldSkipCodeblock cx cfg sys with
  | true =>
    rw [hskip] at hcol
    rw [if_pos rfl] at hcol ⊢
    constructor
    · intro h
      exact absurd h.symm (outputContainsErr_ne_empty x)
    · intro h
      exact absurd rfl h.1
  | false =>
    rw [hskip] at hcol
    rw [if_neg (by simp)] at hcol ⊢
    set st := (runCmdList subst cx cfg cx.commands { env := env0 }).1 with hst
    have hinv := runCmdList_outputs subst cx cfg cx.commands { env := env0 }
      (Or.inl rfl) (Or.inl rfl)
    rw [← hst] at hinv
    have hfall : (if st.response ≠ "" then st.response else st.lastOutput)
        = outputContainsErr x → False := by
      intro h
      by_cases hresp : st.response ≠ ""
      · rw [if_pos hresp] at h
        rcases hinv.1 with h0 | h0
        · exact hresp h0
        · rw [h] at h0; exact hcol h0
      · rw [if_neg hresp] at h
        rcases hinv.2 with h0 | h0
        · rw [h0] at h; exact outputContainsErr_ne_empty x h.symm
        · rw [h] at h0; exact hcol h0
    simp only [blockVerdict, hef, Bool.false_eq_true, if_false, hoc]
    by_cases hne : st.allOutputs ≠ []
    · rw [if_pos ⟨hx, hne⟩]
      cases hcont : strContains (joinNl st.allOutputs) x with
      | false =>
        simp only [Bool.false_eq_true, not_false_eq_true, if_true]
        exact ⟨fun _ => ⟨hne, trivial⟩, fun _ => trivial⟩
      | true =>
        simp only [not_true_eq_false, if_false]
        constructor
        · intro h
          exact absurd h hfall
        · intro h
          exact absurd h.2 (by simp [hcont])
    · rw [if_neg (fun hpair => hne hpair.2)]
      constructor
      · intro h
        exact absurd h hfall
      · intro h
        exact absurd h.1 (by simpa using hne)

/-- C2 counterexample: a block whose only command is a comment captures no
output at all; the claimed equivalence "diagnostic returned iff the substring
is missing from the concatenated outputs" fails there — `ZZZ` is certainly
missing from the empty concatenation, yet `run_commands` returns success. -/
theorem c2_output_contains_counterexample :
    ¬ (CommandExecutor.runCommands c2Block id wConfig wSys envEmpty
          = outputContainsErr "ZZZ"
        ↔ strContains
            (String.join (c2Block.runFull id wConfig wSys envEmpty).2.1.allOutputs)
            "ZZZ" = false) := by
  decide

/-- Witness for the amended C2 on a block whose single command outputs
`hello`: the diagnostic is returned, via the amended theorem. -/
theorem c2_output_contains_amended_witness :
    CommandExecutor.runCommands c2wBlock id wConfig wSys envEmpty
      = outputContainsErr "ZZZ" :=
  (c2_output_contains_amended id wConfig wSys c2wBlock envEmpty "ZZZ"
      rfl rfl (by decide) (by decide)).mpr (by decide)

/-! ### C3 — the `expect_failure` verdict -/

/-- C3 (code evaluation at the failing input): with `expect_failure` set,
`_execute_command` inverts `success` for every executed foreground command,
so even a block whose only command exits 0 (`true`) is counted as
`had_error` and `run_commands` returns success (`""`) instead of the
documented `"Error: expected failure but command succeeded"`.  A block whose
only command is `false` also returns success (that part of the claim holds),
and the diagnostic is produced exactly when no command executed at all. -/
theorem c3_expect_failure_behavior :
    CommandExecutor.runCommands c3TrueBlock id wConfig wSys envEmpty = "" ∧
      CommandExecutor.runCommands c3FalseBlock id wConfig wSys envEmpty = "" ∧
      CommandExecutor.runCommands c3CommentBlock id wConfig wSys envEmpty
        = "Error: expected failure but command succeeded" := by
  decide

/-! ### C4 — the retry loop -/

/-- Tail of the retry loop for a failing non-`source` command, entered at
attempt number ≥ 2: the loop performs the remaining `fuel` attempts, sleeping
once before each, and returns the failure diagnostic built from the last
attempt. -/
theorem attemptLoop_fail_ge2 (cx : CommandExecutor) (c : ShellCmd)
    (cmdText : String)
    (hval : validate_command cmdText = none)
    (hns : isSourceCmd cmdText = false)
    (hfail : ∀ n, c.attemptStatus n ≠ 0) :
    ∀ (fuel attempt : Nat), 1 ≤ fuel → 2 ≤ attempt →
    attemptLoop cx c cmdText fuel attempt =
      { success := false
      , output := some (mkFailMsg cmdText (c.attemptStatus (attempt + fuel - 1))
          (c.attemptOutput (attempt + fuel - 1)))
      , mergedPairs := []
      , attempts := attempt + fuel - 1
      , sleeps := List.replicate (fuel - 1) (retryDelay cx.delay_manager) } := by
  intro fuel
  induction fuel with
  | zero => intro attempt h1; omega
  | succ f ih =>
    intro attempt h1 h2
    simp only [attemptLoop, executeCommandFg, hval, hns, Bool.false_eq_true,
      if_false]
    rw [if_pos (hfail attempt)]
    cases f with
    | zero =>
      rw [if_pos rfl]
      simp
    | succ f' =>
      rw [if_neg (by omega)]
      rw [ih (attempt + 1) (by omega) (by omega)]
      rw [if_neg (by omega)]
      have harith : attempt + 1 + (f' + 1) - 1 = attempt + (f' + 1 + 1) - 1 := by
        omega
      simp [harith, List.replicate_succ]

/-- C4 (amended) — retry policy: a foreground command with
`retry_count = R ≥ 1` (no `replace_text`, not a `source` line, passing
`validate_command`) that fails on every attempt is attempted exactly `R + 1`
times; the engine sleeps `cmd_delay` seconds (the default 2 when the delay
manager is absent or its `cmd_delay` is not positive) between consecutive
attempts *except* between the first and the second (`_handle_retry_cmd_delay`
returns immediately for attempt 1), for `R - 1` sleeps in total, and after
the final failed attempt returns a descriptive error string. -/
theorem c4_retry_amended (cx : CommandExecutor) (c : ShellCmd) (env : EnvMap)
    (R : Nat)
    (hR : cx.retry_count = R) (h1 : 1 ≤ R)
    (hrt : cx.replace_text = none)
    (hval : validate_command c.text = none)
    (hns : isSourceCmd c.text = false)
    (hfail : ∀ n, c.attemptStatus n ≠ 0) :
    (executeCommandStep cx c false env).attempts = R + 1 ∧
      (executeCommandStep cx c false env).sleeps
        = List.replicate (R - 1) (retryDelay cx.delay_manager) ∧
      (executeCommandStep cx c false env).success = false ∧
      (executeCommandStep cx c false env).output
        = some (mkFailMsg c.text (c.attemptStatus (R + 1))
            (c.attemptOutput (R + 1))) := by
  have hmax : max 1 (cx.retry_count + 1) = R + 1 := by
    rw [hR]; omega
  have hstep : executeCommandStep cx c false env
      = attemptLoop cx c c.text (R + 1) 1 := by
    simp only [executeCommandStep, hrt, Bool.false_eq_true, if_false, hmax]
  obtain ⟨R', rfl⟩ : ∃ m, R = m + 1 := ⟨R - 1, by omega⟩
  have hloop : attemptLoop cx c c.text (R' + 1 + 1) 1 =
      { success := false
      , output := some (mkFailMsg c.text (c.attemptStatus (R' + 1 + 1))
          (c.attemptOutput (R' + 1 + 1)))
      , mergedPairs := []
      , attempts := R' + 1 + 1
      , sleeps := List.replicate (R' + 1 - 1) (retryDelay cx.delay_manager) } := by
    conv_lhs => rw [attemptLoop]
    simp only [executeCommandFg, hval, hns, Bool.false_eq_true, if_false]
    rw [if_pos (hfail 1)]
    rw [if_neg (by omega)]
    rw [attemptLoop_fail_ge2 cx c c.text hval hns hfail (R' + 1) (1 + 1)
      (by omega) (by omega)]
    have harith : 1 + 1 + (R' + 1) - 1 = R' + 1 + 1 := by omega
    simp [harith]
  rw [hstep, hloop]
  refine ⟨rfl, rfl, rfl, rfl⟩

/-- C4 counterexample: with `retry_count = 1` on an always-failing command
the engine makes its two attempts back to back — no sleep happens between the
first and the second attempt, although the claim demands one of `cmd_delay`
(default 2) seconds there. -/
theorem c4_retry_counterexample :
    (executeCommandStep c4Block1 c4FailCmd false envEmpty).attempts = 2 ∧
      (executeCommandStep c4Block1 c4FailCmd false envEmpty).sleeps = [] ∧
      (executeCommandStep c4Block1 c4FailCmd false envEmpty).sleeps
        ≠ [retryDelay c4Block1.delay_manager] := by
  decide

/-- Witness for the amended C4 at `retry_count = 2`: three attempts, one
sleep of the default 2 seconds (between attempts 2 and 3 only). -/
theorem c4_retry_amended_witness :
    (executeCommandStep c4Block2 c4FailCmd false envEmpty).attempts = 3 ∧
      (executeCommandStep c4Block2 c4FailCmd false envEmpty).sleeps = [2] := by
  have h := c4_retry_amended c4Block2 c4FailCmd envEmpty 2 rfl (by decide)
    rfl rfl (by decide) (fun n => by simp [c4FailCmd])
  exact ⟨by rw [h.1], by rw [h.2.1]; decide⟩

/-! ### C5 — `replace_lines` -/

/-- C5 (amended) — line replacement: `_replace_lines` decrements *both*
bounds, so for `replace_lines = (start, end)` with `end ≥ 2` the replaced
0-based slice is `[start-1, end-1)` (its upper bound clamped to the line
count): lines `start` through `end - 1` inclusive are removed and replaced
by the single content block — in particular `(N, N)` inserts the block
before line `N` without removing anything.  A 1-based `end` of `1` (or any
`end ≤ 0`, which the conversion turns into `None`) behaves like an absent
`end`: the content is appended when `start` is beyond end-of-file and
otherwise replaces the single line at index `start - 1`. -/
theorem c5_replace_lines_amended (lines : List String) (content : String)
    (start e : Int) (hs : 1 ≤ start) :
    (2 ≤ e →
      FileOperations.replaceLinesOp { replace_lines := some (start, some e) }
          lines content
        = lines.take (start - 1).toNat ++ [content]
            ++ lines.drop (max (start - 1).toNat (min (e - 1).toNat lines.length)))
    ∧ (FileOperations.replaceLinesOp { replace_lines := some (start, none) }
          lines content
        = if (lines.length : Int) ≤ start - 1 then lines ++ [content]
          else lines.set (start - 1).toNat content)
    ∧ (e ≤ 1 →
      FileOperations.replaceLinesOp { replace_lines := some (start, some e) }
          lines content
        = FileOperations.replaceLinesOp { replace_lines := some (start, none) }
            lines content) := by
  refine ⟨?_, ?_, ?_⟩
  · intro he
    simp only [FileOperations.replaceLinesOp]
    rw [if_pos (by omega : start > 0), if_pos (by omega : e > 0)]
    dsimp only
    rw [if_neg (by omega : ¬ (e - 1 : Int) = 0)]
    simp only [pySliceReplace]
    have hidx : ((if (e - 1 : Int) ≥ (lines.length : Int) then (lines.length : Int)
          else e - 1)).toNat ⊓ lines.length = (e - 1).toNat ⊓ lines.length := by
      split <;> omega
    rw [hidx]
  · simp only [FileOperations.replaceLinesOp]
    rw [if_pos (by omega : start > 0)]
  · intro he
    simp only [FileOperations.replaceLinesOp]
    by_cases h0 : e > 0
    · have he1 : e = 1 := by omega
      subst he1
      rw [if_pos (by omega : (1 : Int) > 0)]
      simp
    · rw [if_neg h0]

/-- C5 counterexample: `replace_lines = (2, 3)` on `["one","two","three"]`
replaces only line 2 (slice `[1, 2)`), keeping line 3 — while the claimed
slice `[start-1, end) = [1, 3)` would have removed lines 2 and 3, leaving
`["one", "X"]`. -/
theorem c5_replace_lines_counterexample :
    FileOperations.replaceLinesOp { replace_lines := some (2, some 3) }
        ["one\n", "two\n", "three\n"] "X\n"
      = ["one\n", "X\n", "three\n"] ∧
    FileOperations.replaceLinesOp { replace_lines := some (2, some 3) }
        ["one\n", "two\n", "three\n"] "X\n"
      ≠ ["one\n", "X\n"] := by
  decide

/-- Witness for the amended C5 at `(start, end) = (2, 3)` on three lines. -/
theorem c5_replace_lines_amended_witness :
    FileOperations.replaceLinesOp { replace_lines := some (2, some 3) }
        ["one\n", "two\n", "three\n"] "X\n"
      = ["one\n", "X\n", "three\n"] := by
  have h := (c5_replace_lines_amended ["one\n", "two\n", "three\n"] "X\n" 2 3
    (by decide)).1 (by decide)
  rw [h]
  decide

/-! ### C6 — `insert_at_line` -/

/-- C6 (amended) — line insertion: a positive `N` becomes the 0-based
insertion index `min N len`, i.e. the normalized block lands immediately
*after* line `N` (before 1-based line `N + 1`), not before line `N`; a
negative `N` is an offset from end-of-file with index
`max 0 (len + N + 1)`; `-1` appends at the last position; the index is
clamped into `[0, len]`. -/
theorem c6_insert_line_amended (lines : List String) (content : String)
    (n : Int) :
    (0 < n →
      FileOperations.insertLinesOp { insert_at_line := some n } lines content
        = lines.insertIdx (min n.toNat lines.length) content)
    ∧ (n < 0 →
      FileOperations.insertLinesOp { insert_at_line := some n } lines content
        = lines.insertIdx (lines.length + n + 1 : Int).toNat content)
    ∧ (n = -1 →
      FileOperations.insertLinesOp { insert_at_line := some n } lines content
        = lines ++ [content]) := by
  refine ⟨?_, ?_, ?_⟩
  · intro hn
    simp only [FileOperations.insertLinesOp]
    rw [if_neg (by omega : ¬ n = 0), if_pos (by omega : n > 0)]
    have h1 : (max 0 (min n (lines.length : Int))).toNat
        = min n.toNat lines.length := by omega
    rw [h1]
  · intro hn
    simp only [FileOperations.insertLinesOp]
    rw [if_neg (by omega : ¬ n = 0), if_neg (by omega : ¬ n > 0)]
    have h1 : (max 0 (min ((lines.length : Int) + n + 1) (lines.length : Int))).toNat
        = (lines.length + n + 1 : Int).toNat := by omega
    rw [h1]
  · intro hn
    subst hn
    simp only [FileOperations.insertLinesOp]
    rw [if_neg (by omega : ¬ (-1 : Int) = 0), if_neg (by omega : ¬ (-1 : Int) > 0)]
    have h1 : (max 0 (min ((lines.length : Int) + -1 + 1) (lines.length : Int))).toNat
        = lines.length := by omega
    rw [h1]
    exact List.insertIdx_length_self lines content

/-- C6 counterexample: `insert_at_line = 1` on `["a", "b"]` puts the block
*after* line 1 (`lines.insert(1, …)`), not before it as the claim states. -/
theorem c6_insert_line_counterexample :
    FileOperations.insertLinesOp { insert_at_line := some 1 } ["a\n", "b\n"] "X\n"
      = ["a\n", "X\n", "b\n"] ∧
    FileOperations.insertLinesOp { insert_at_line := some 1 } ["a\n", "b\n"] "X\n"
      ≠ ["X\n", "a\n", "b\n"] := by
  decide

/-- Witness for the amended C6: inserting at `N = 1` into two lines, and
appending with `N = -1`. -/
theorem c6_insert_line_amended_witness :
    FileOperations.insertLinesOp { insert_at_line := some 1 } ["a\n", "b\n"] "X\n"
      = ["a\n", "X\n", "b\n"] ∧
    FileOperations.insertLinesOp { insert_at_line := some (-1) } ["a\n", "b\n"] "X\n"
      = ["a\n", "b\n", "X\n"] := by
  constructor
  · have h := (c6_insert_line_amended ["a\n", "b\n"] "X\n" 1).1 (by decide)
    rw [h]
    decide
  · have h := (c6_insert_line_amended ["a\n", "b\n"] "X\n" (-1)).2.2 rfl
    rw [h]
    decide

/-! ### C7 — quoted tag-value extraction -/

theorem specEscapeQuoted_cons (q c : Char) (s : List Char) :
    specEscapeQuoted q (c :: s)
      = (if c = q then ['\\', q] else if c = '\\' then ['\\', '\\'] else [c])
        ++ specEscapeQuoted q s := by
  simp [specEscapeQuoted]

theorem processQuoted_esc_quote (q : Char) (rest : List Char) :
    Tags.processQuoted q ('\\' :: q :: rest) = q :: Tags.processQuoted q rest := by
  simp [Tags.processQuoted]

theorem processQuoted_esc_backslash (q : Char) (rest : List Char)
    (hq : q ≠ '\\') :
    Tags.processQuoted q ('\\' :: '\\' :: rest)
      = '\\' :: Tags.processQuoted q rest := by
  simp [Tags.processQuoted, Ne.symm hq]

theorem processQuoted_other_backslash (q c : Char) (rest : List Char)
    (hcq : c ≠ q) (hcb : c ≠ '\\') :
    Tags.processQuoted q ('\\' :: c :: rest)
      = '\\' :: Tags.processQuoted q (c :: rest) := by
  simp [Tags.processQuoted, hcq, hcb]

theorem processQuoted_close (q : Char) (rest : List Char) (hq : q ≠ '\\') :
    Tags.processQuoted q (q :: rest) = [] := by
  cases rest with
  | nil => simp [Tags.processQuoted, hq]
  | cons a t => simp [Tags.processQuoted, hq]

theorem processQuoted_copy (q c : Char) (rest : List Char) (hcb : c ≠ '\\')
    (hcq : c ≠ q) :
    Tags.processQuoted q (c :: rest) = c :: Tags.processQuoted q rest := by
  cases rest with
  | nil => simp [Tags.processQuoted, hcb, hcq]
  | cons a t => simp [Tags.processQuoted, hcb, hcq]

/-- C7 — quoted tag-value extraction, formalizing each sentence of the claim
against the `extract_tag_value` loop:
(i) for a quote `q` (`"` or `'`), parsing an escaped body followed by the
closing quote recovers the body exactly and stops at that first unescaped
quote, whatever follows — so `\q` yields a literal quote and `\\` a literal
backslash; a backslash before anything else is preserved literally;
(ii) a value not beginning with a quote is passed through unchanged;
(iii) `extract` returns the value of the first tag matching the canonical
name or an alias, run through the converter, or the default when none
matches. -/
theorem c7_quoted_extract :
    (∀ (q : Char), q = '"' ∨ q = '\'' →
      (∀ (s junk : List Char),
        Tags.processQuoted q (specEscapeQuoted q s ++ q :: junk) = s)
      ∧ (∀ (c : Char) (rest : List Char), c ≠ q → c ≠ '\\' →
          Tags.processQuoted q ('\\' :: c :: rest)
            = '\\' :: Tags.processQuoted q (c :: rest)))
    ∧ (∀ (v : String) (c : Char) (rest : List Char), v.toList = c :: rest →
        c ≠ '"' → c ≠ '\'' → Tags.processValue v = v)
    ∧ (∀ (α : Type) (tags : List String) (tagType : String) (default : α)
        (conv : String → α),
        Tags.extractTagValueConv tags tagType default conv
          = match tags.find? (fun t => specTagMatches tagType t) with
            | some t => conv (Tags.processValue (Tags.afterFirstEq t))
            | none => default) := by
  refine ⟨?_, ?_, ?_⟩
  · intro q hq
    have hqb : q ≠ '\\' := by
      rcases hq with h | h <;> subst h <;> decide
    refine ⟨?_, fun c rest hcq hcb => processQuoted_other_backslash q c rest hcq hcb⟩
    intro s
    induction s with
    | nil =>
      intro junk
      simp only [specEscapeQuoted, List.nil_bind, List.nil_append]
      exact processQuoted_close q junk hqb
    | cons c s ih =>
      intro junk
      rw [specEscapeQuoted_cons]
      by_cases hcq : c = q
      · subst hcq
        rw [if_pos rfl]
        simp only [List.cons_append, List.append_assoc, List.nil_append]
        rw [processQuoted_esc_quote, ih junk]
      · rw [if_neg hcq]
        by_cases hcb : c = '\\'
        · subst hcb
          rw [if_pos rfl]
          simp only [List.cons_append, List.append_assoc, List.nil_append]
          rw [processQuoted_esc_backslash q _ hqb, ih junk]
        · rw [if_neg hcb]
          simp only [List.cons_append, List.nil_append]
          rw [processQuoted_copy q c _ hcb hcq, ih junk]
  · intro v c rest hv hc1 hc2
    simp only [Tags.processValue, hv]
    rw [if_neg (by simp [hc1, hc2])]
  · intro α tags tagType default conv
    induction tags with
    | nil => rfl
    | cons t ts ih =>
      simp only [Tags.extractTagValueConv, Tags.extractTagValue,
        List.filterMap_cons] at ih ⊢
      by_cases h : (Tags.possibleTags tagType).any
          (fun p => pyStartsWith t (p ++ "=")) = true
      · rw [if_pos h]
        rw [List.find?_cons_of_pos _ (by simpa [specTagMatches] using h)]
        simp
      · rw [if_neg h]
        rw [List.find?_cons_of_neg _ (by simpa [specTagMatches] using h)]
        exact ih

set_option maxRecDepth 4096 in
/-- Witness for C7: the escape loop recovers `My` from `"My"`-style input,
and a concrete alias-tagged token returns its quoted value. -/
theorem c7_quoted_extract_witness :
    Tags.processQuoted '"' (specEscapeQuoted '"' ['M', 'y'] ++ ['"']) = ['M', 'y']
      ∧ Tags.extractTagValueConv ["docci-contains=\"My Value\""]
          "docci-output-contains" "" id = "My Value" := by
  constructor
  · exact (c7_quoted_extract.1 '"' (Or.inl rfl)).1 ['M', 'y'] []
  · rw [c7_quoted_extract.2.2 String ["docci-contains=\"My Value\""]
      "docci-output-contains" "" id]
    decide

/-! ### C8 — the retry / replace-text tags are absent from the registry -/

/-- C8 (code evaluation at the failing input): the `Tags` enum has no member
`docci-retry` or `docci-replace-text` and the alias table maps nothing to
them, so `Tags.is_valid` rejects both tokens and a fence tagged
`docci-retry=3` makes `process_language_parts` raise
`ValueError("Invalid tag found in your documentation: docci-retry…")`
instead of parsing into a block with `retry_count = 3`. -/
theorem c8_retry_tag_missing :
    Tags.isValid "docci-retry" = false ∧
      Tags.isValid "docci-replace-text" = false ∧
      processLanguageParts ["bash", "docci-retry=3"]
        = Except.error
            "Invalid tag found in your documentation: docci-retry. Check the release notes for renamed tags" := by
  refine ⟨by decide, by decide, by rfl⟩

/-! ### C9 — `ignore_commands` is dropped by `Config.from_json` -/

/-- C9 (code evaluation at the failing input): `Config.from_json` never reads
the `ignore_commands` key, so a document carrying
`"ignore_commands": ["rm -rf /"]` loads into a `Config` whose
`ignore_commands` is the class default `[]`, and the command `rm -rf /` is
*not* skipped by `_should_skip_cmd_execution` under that config. -/
theorem c9_ignore_commands_dropped :
    (Config.fromJson
        { paths := [], ignore_commands := some ["rm -rf /"] }).ignore_commands
      = [] ∧
      shouldSkipCmd
          (Config.fromJson { paths := [], ignore_commands := some ["rm -rf /"] })
          "rm -rf /"
        = false := by
  decide

/-! ### C10 — `source` command behavior -/

/-- C10 (amended) — for a foreground command whose first word is `source`
(case-insensitive, after stripping), `execute_command` always reports status
0 with empty output, merging the parsed env dump when the delimiter was
printed and nothing otherwise; consequently `_execute_command` performs
exactly one attempt with no retry sleeps regardless of `retry_count`, its
output is `""`, and its reported success is simply the negation of
`expect_failure` — so a failing `source` never produces a `CommandFailure`,
but (because with `expect_failure` set every executed foreground command is
counted as a failure) a block whose only command is a `source` line *does*
satisfy an `expect_failure` assertion, contrary to the claim's last part. -/
theorem c10_source_amended (cx : CommandExecutor) (c : ShellCmd) (env : EnvMap)
    (attempt : Nat)
    (hsrc : isSourceCmd c.text = true)
    (hval : validate_command c.text = none)
    (hrt : cx.replace_text = none) :
    executeCommandFg c c.text attempt
      = (0, "", match c.dumpLines with
          | some ls => parseEnvDump ls
          | none => []) ∧
      (executeCommandStep cx c false env).attempts = 1 ∧
      (executeCommandStep cx c false env).sleeps = [] ∧
      (executeCommandStep cx c false env).output = some "" ∧
      (executeCommandStep cx c false env).success = (!cx.expect_failure) := by
  have hfg : executeCommandFg c c.text attempt
      = (0, "", match c.dumpLines with
          | some ls => parseEnvDump ls
          | none => []) := by
    simp only [executeCommandFg, hval, hsrc, if_true]
    cases c.dumpLines <;> rfl
  refine ⟨hfg, ?_⟩
  have hstep : executeCommandStep cx c false env
      = attemptLoop cx c c.text (max 1 (cx.retry_count + 1)) 1 := by
    simp only [executeCommandStep, hrt, Bool.false_eq_true, if_false]
  obtain ⟨m, hm⟩ : ∃ m, max 1 (cx.retry_count + 1) = m + 1 :=
    ⟨cx.retry_count, by omega⟩
  have hfg1 : executeCommandFg c c.text 1
      = (0, "", match c.dumpLines with
          | some ls => parseEnvDump ls
          | none => []) := by
    simp only [executeCommandFg, hval, hsrc, if_true]
    cases c.dumpLines <;> rfl
  have hloop : attemptLoop cx c c.text (m + 1) 1
      = { success := !cx.expect_failure
        , output := some ""
        , mergedPairs :=
            (match c.dumpLines with | some ls => parseEnvDump ls | none => [])
        , attempts := 1
        , sleeps := [] } := by
    conv_lhs => rw [attemptLoop]
    rw [hfg1]
    dsimp only
    rw [if_neg (by omega : ¬ (0 : Int) ≠ 0)]
    cases hef : cx.expect_failure <;> simp [hef]
  rw [hstep, hm, hloop]
  exact ⟨rfl, rfl, rfl, rfl⟩

/-- C10 counterexample: an expect-failure block whose only command is a
*failing* `source` (no delimiter printed, so `dumpLines = none`) returns
success — the failing `source` does satisfy the `expect_failure` assertion,
refuting "can never satisfy an expect_failure assertion". -/
theorem c10_source_counterexample :
    c10Block.expect_failure = true ∧ c10SrcFail.dumpLines = none ∧
      CommandExecutor.runCommands c10Block id wConfig wSys envEmpty = "" := by
  decide

/-- Witness for the amended C10 on the concrete failing `source`. -/
theorem c10_source_amended_witness :
    executeCommandFg c10SrcFail c10SrcFail.text 1 = (0, "", []) ∧
      (executeCommandStep { commands := [c10SrcFail] } c10SrcFail false
          envEmpty).attempts = 1 ∧
      (executeCommandStep { commands := [c10SrcFail] } c10SrcFail false
          envEmpty).output = some "" := by
  have h := c10_source_amended { commands := [c10SrcFail] } c10SrcFail envEmpty 1
    (by decide) (by decide) rfl
  exact ⟨h.1, h.2.1, h.2.2.2.1⟩
